import Mathlib

/-!
Verification development for the projection-iterator repository.

The embedding covers:
* `make_folded_interleave_projection` from `src/folded_interleave_sort.cc`
  (lines 23–28): `ptrdiff_t` is modelled as `Int`.
* the `jz::ProjIter` iterator adapter from `src/projection_iterator.hh`:
  an iterator instance is the triple `(base_, projection_, index_)`; the base
  iterator is modelled as an integer position into a container modelled as a
  `List`, and each member function is translated operation-for-operation.
* the effect of `std::sort` driven through a `ProjIter` range, modelled by
  the standard-library postcondition of `std::sort` (the sequence seen
  through the iterator range becomes a sorted permutation of itself, each
  element written back through the projection).
-/

namespace ProjectionIterator

/-- Model of `make_folded_interleave_projection` from
`src/folded_interleave_sort.cc`: returns the closure `[size](index) { index2 = 2*index;
return index2 >= size ? 2*size - index2 - 1 : index2; }`. -/
def make_folded_interleave_projection (size : Int) : Int → Int :=
  fun index =>
    let index2 := 2 * index
    if index2 ≥ size then 2 * size - index2 - 1 else index2

/-- State of `jz::ProjIter`: the triple of data members `base_`, `projection_`,
`index_` from `src/projection_iterator.hh`.  The base iterator is a position
(integer offset) into the underlying container. -/
structure ProjIter where
  base_ : Int
  projection_ : Int → Int
  index_ : Int

/-- Model of `make_projection_iterator` / the `ProjIter` constructor: stores base and
projection and sets `index_` to 0. -/
def make_projection_iterator (base : Int) (projection : Int → Int) : ProjIter :=
  { base_ := base, projection_ := projection, index_ := 0 }

/-- Copy/move assignment `operator=`: copies `base_` and `index_` from the
right-hand side; `projection_` is not assigned. -/
def ProjIter.assign (lhs rhs : ProjIter) : ProjIter :=
  { lhs with base_ := rhs.base_, index_ := rhs.index_ }

/-- Model of `operator+=`: `index_ += delta`. -/
def ProjIter.addAssign (it : ProjIter) (delta : Int) : ProjIter :=
  { it with index_ := it.index_ + delta }

/-- Model of `operator+(ptrdiff_t)`: copy then `+=`. -/
def ProjIter.addInt (it : ProjIter) (delta : Int) : ProjIter :=
  it.addAssign delta

/-- Model of `operator-=`: the source performs `index_ += delta` (it adds the delta). -/
def ProjIter.subAssign (it : ProjIter) (delta : Int) : ProjIter :=
  { it with index_ := it.index_ + delta }

/-- Model of `operator-(ptrdiff_t)`: copy then `-=`. -/
def ProjIter.subInt (it : ProjIter) (delta : Int) : ProjIter :=
  it.subAssign delta

/-- Model of `operator-(const ProjIter&)`: `index_ - rhs.index_`. -/
def ProjIter.diff (a b : ProjIter) : Int :=
  a.index_ - b.index_

/-- Model of `operator<`: `index_ < rhs.index_`. -/
def ProjIter.lt (a b : ProjIter) : Bool :=
  decide (a.index_ < b.index_)

/-- Model of `operator==`: `index_ == rhs.index_`. -/
def ProjIter.beq (a b : ProjIter) : Bool :=
  decide (a.index_ = b.index_)

/-- Model of `operator>`: `rhs < *this`. -/
def ProjIter.gt (a b : ProjIter) : Bool :=
  ProjIter.lt b a

/-- Model of `operator<=`: `!(*this > rhs)`. -/
def ProjIter.le (a b : ProjIter) : Bool :=
  !(ProjIter.gt a b)

/-- Model of `operator>=`: `!(*this < rhs)`. -/
def ProjIter.ge (a b : ProjIter) : Bool :=
  !(ProjIter.lt a b)

/-- Model of `operator!=`: `!(*this == rhs)`. -/
def ProjIter.neq (a b : ProjIter) : Bool :=
  !(ProjIter.beq a b)

/-- Model of `projected_()`: a copy of `base_` advanced by `projection_(index_)`. -/
def ProjIter.projected_ (it : ProjIter) : Int :=
  it.base_ + it.projection_ it.index_

/-- Model of `operator->` as written in the source: the body computes and
returns `projected_()`, a copy of the base iterator advanced to the projected
position — yet the declared return type is `value_type`, the element type.
For the repository's own instantiation (`std::vector<int>::iterator`, whose
`value_type` is `int`) no conversion from the iterator to the element type
exists, so the member is ill-formed whenever it is used.  The model keeps the
value the `return` statement computes, which is a position, not an element. -/
def ProjIter.arrowBody (it : ProjIter) : Int :=
  it.projected_

/-- Reading a random-access position `pos` inside container `c`: the element
there, or `none` when the position is outside the container. -/
def atPos {α : Type} (c : List α) (pos : Int) : Option α :=
  if 0 ≤ pos then c.get? pos.toNat else none

/-- Model of `operator*`: the element the projected position refers to. -/
def deref {α : Type} (c : List α) (it : ProjIter) : Option α :=
  atPos c it.projected_

/-- The folded-interleave projection restricted to `Fin n`. -/
def fipFin (n : Nat) (i : Fin n) : Fin n :=
  ⟨(make_folded_interleave_projection (n : Int) ((i : Nat) : Int)).toNat, by
    have hi : ((i : Nat) : Int) < (n : Int) := by exact_mod_cast i.isLt
    have h0 : (0 : Int) ≤ ((i : Nat) : Int) := Int.ofNat_nonneg i
    have he : make_folded_interleave_projection (n : Int) ((i : Nat) : Int) =
        if 2 * ((i : Nat) : Int) ≥ (n : Int) then
          2 * (n : Int) - 2 * ((i : Nat) : Int) - 1
        else 2 * ((i : Nat) : Int) := rfl
    rw [he]
    split <;> omega⟩

/-- The sequence of elements seen by walking logical indices `0, ..., n-1`
through a projection iterator with base position 0 over container `A` (what
a generic algorithm observes through the iterator range `[begin, begin+n)`). -/
def logicalView (A : List Int) (p : Int → Int) : List Int :=
  (List.range A.length).map
    (fun (i : Nat) =>
      (deref A ((make_projection_iterator 0 p).addInt (i : Int))).getD 0)

/-- Effect of `std::sort(fip_begin, fip_begin + n)` on the physical
container, as in `main` of `src/folded_interleave_sort.cc`.  `std::sort` is
the external standard library; it is modelled by its postcondition: the
sequence seen through the iterator range becomes its ascending sort, so the
value at sorted logical position `i` is written back through the iterator to
physical position `p(i)`. -/
def sortThroughProjIter (A : List Int) (p : Int → Int) : List Int :=
  (List.range A.length).foldl
    (fun acc (i : Nat) =>
      acc.set (p (i : Int)).toNat
        ((List.insertionSort (fun a b : Int => a ≤ b) (logicalView A p)).getD i 0))
    A

/-- Unfolding equation for the folded-interleave projection, as written in
the source: the branch taken is `index2 >= size`. -/
lemma fip_eval (n i : Int) :
    make_folded_interleave_projection n i =
      if 2 * i ≥ n then 2 * n - 2 * i - 1 else 2 * i := rfl

/-- On the domain `[0, n)` the projection lands back in `[0, n)`. -/
lemma fip_bounds (n i : Int) (h0 : 0 ≤ i) (h1 : i < n) :
    0 ≤ make_folded_interleave_projection n i ∧
      make_folded_interleave_projection n i < n := by
  rw [fip_eval]
  split <;> omega

/-- The projection is injective: equal even values force equal inputs, equal
odd values force equal inputs, and an even value never equals an odd one. -/
lemma fip_inj (n i j : Int)
    (h : make_folded_interleave_projection n i =
      make_folded_interleave_projection n j) : i = j := by
  rw [fip_eval, fip_eval] at h
  split at h <;> split at h <;> omega

lemma fipFin_injective (n : Nat) : Function.Injective (fipFin n) := by
  intro i j h
  have hi := fip_bounds (n : Int) ((i : Nat) : Int)
    (Int.ofNat_nonneg i) (by exact_mod_cast i.isLt)
  have hj := fip_bounds (n : Int) ((j : Nat) : Int)
    (Int.ofNat_nonneg j) (by exact_mod_cast j.isLt)
  have hval : (make_folded_interleave_projection (n : Int) ((i : Nat) : Int)).toNat =
      (make_folded_interleave_projection (n : Int) ((j : Nat) : Int)).toNat := by
    simpa [fipFin] using h
  have heq : make_folded_interleave_projection (n : Int) ((i : Nat) : Int) =
      make_folded_interleave_projection (n : Int) ((j : Nat) : Int) := by omega
  have hij := fip_inj (n : Int) ((i : Nat) : Int) ((j : Nat) : Int) heq
  exact Fin.ext (by exact_mod_cast hij)

/-- Folding a batch of `set` writes does not change the list's length. -/
lemma foldl_set_length (σ : Nat → Nat) (v : Nat → Int) (l : List Nat) :
    ∀ B : List Int,
      (l.foldl (fun acc m => acc.set (σ m) (v m)) B).length = B.length := by
  induction l with
  | nil => intro B; rfl
  | cons m rest ih =>
      intro B
      rw [List.foldl_cons, ih, List.length_set]

/-- A batch of `set` writes to positions other than `t` leaves position `t`
unchanged. -/
lemma foldl_set_getD_ne (σ : Nat → Nat) (v : Nat → Int) (t : Nat)
    (l : List Nat) :
    ∀ B : List Int, (∀ m ∈ l, σ m ≠ t) →
      (l.foldl (fun acc m => acc.set (σ m) (v m)) B).getD t 0 = B.getD t 0 := by
  induction l with
  | nil => intro B _; rfl
  | cons m rest ih =>
      intro B h
      rw [List.foldl_cons, ih _ (fun x hx => h x (List.mem_cons_of_mem m hx))]
      have hne : σ m ≠ t := h m (List.mem_cons_self m rest)
      simp [List.getD_eq_getElem?_getD, List.getElem?_set_ne hne]

/-- After a batch of `set` writes to pairwise-distinct in-range positions,
position `σ k` holds the value `v k` written for `k`. -/
lemma foldl_set_getD_mem (σ : Nat → Nat) (v : Nat → Int) (l : List Nat) :
    ∀ (B : List Int) (k : Nat), k ∈ l →
      (∀ a ∈ l, ∀ b ∈ l, σ a = σ b → a = b) →
      σ k < B.length →
      (l.foldl (fun acc m => acc.set (σ m) (v m)) B).getD (σ k) 0 = v k := by
  induction l with
  | nil => intro B k hk _ _; cases hk
  | cons m rest ih =>
      intro B k hk hinj hlen
      rw [List.foldl_cons]
      by_cases hkr : k ∈ rest
      · exact ih (B.set (σ m) (v m)) k hkr
          (fun a ha b hb =>
            hinj a (List.mem_cons_of_mem m ha) b (List.mem_cons_of_mem m hb))
          (by rwa [List.length_set])
      · have hkm : k = m := (List.mem_cons.mp hk).resolve_right hkr
        subst hkm
        have hni : ∀ x ∈ rest, σ x ≠ σ k := by
          intro x hx hc
          have hxk : x = k :=
            hinj x (List.mem_cons_of_mem k hx)
              k (List.mem_cons_self k rest) hc
          exact hkr (hxk ▸ hx)
        rw [foldl_set_getD_ne σ v (σ k) rest _ hni]
        simp [List.getD_eq_getElem?_getD, List.getElem?_set_self hlen]

/-- The value the sorted write-back leaves at physical position `p(k)`:
entry `k` of the ascending sort of the logical view. -/
lemma sortThrough_getD (A : List Int) (p : Int → Int)
    (hrange : ∀ i : Nat, i < A.length →
      0 ≤ p (i : Int) ∧ p (i : Int) < (A.length : Int))
    (hinj : ∀ i : Nat, i < A.length → ∀ j : Nat, j < A.length →
      p (i : Int) = p (j : Int) → i = j)
    (k : Nat) (hk : k < A.length) :
    (sortThroughProjIter A p).getD (p (k : Int)).toNat 0 =
      (List.insertionSort (fun a b : Int => a ≤ b) (logicalView A p)).getD k 0 := by
  unfold sortThroughProjIter
  refine foldl_set_getD_mem (fun m : Nat => (p (m : Int)).toNat)
    (fun m : Nat =>
      (List.insertionSort (fun a b : Int => a ≤ b) (logicalView A p)).getD m 0)
    (List.range A.length) A k
    (List.mem_range.mpr hk) ?_ ?_
  · intro a ha b hb hab
    have ha' := List.mem_range.mp ha
    have hb' := List.mem_range.mp hb
    have h1 := hrange a ha'
    have h2 := hrange b hb'
    have hab' : (p (a : Int)).toNat = (p (b : Int)).toNat := hab
    exact hinj a ha' b hb' (by omega)
  · show (p (k : Int)).toNat < A.length
    have h1 := hrange k hk
    omega

/-- Entries of an ascending insertion sort are monotone in the index. -/
lemma insertionSort_getD_mono (l : List Int) (i j : Nat) (hij : i ≤ j)
    (hj : j < l.length) :
    (List.insertionSort (fun a b : Int => a ≤ b) l).getD i 0 ≤
      (List.insertionSort (fun a b : Int => a ≤ b) l).getD j 0 := by
  have hlen : (List.insertionSort (fun a b : Int => a ≤ b) l).length = l.length :=
    List.length_insertionSort _ _
  have hs : List.Sorted (fun a b : Int => a ≤ b)
      (List.insertionSort (fun a b : Int => a ≤ b) l) :=
    List.sorted_insertionSort _ _
  have hi' : i < (List.insertionSort (fun a b : Int => a ≤ b) l).length := by omega
  have hj' : j < (List.insertionSort (fun a b : Int => a ≤ b) l).length := by omega
  rcases Nat.eq_or_lt_of_le hij with h | h
  · rw [h]
  · have hrel := hs.rel_get_of_lt (a := ⟨i, hi'⟩) (b := ⟨j, hj'⟩)
      (Fin.mk_lt_mk.mpr h)
    rw [List.getD_eq_getElem?_getD, List.getD_eq_getElem?_getD,
      List.getElem?_eq_getElem hi', List.getElem?_eq_getElem hj']
    simpa [List.get_eq_getElem] using hrel

end ProjectionIterator

namespace ProjectionIterator

/-- Claim C1: for every container size `n ≥ 0` and every logical index `i`,
the folded-interleave projection computes `p(i) = 2*i` when `2*i < n`, and
`2*n - 2*i - 1` otherwise. -/
theorem fip_formula (n i : Int) :
    make_folded_interleave_projection n i =
      if 2 * i < n then 2 * i else 2 * n - 2 * i - 1 := by
  unfold make_folded_interleave_projection
  by_cases h : 2 * i ≥ n
  · simp only [h, if_true]
    have h2 : ¬ (2 * i < n) := not_lt.mpr h
    simp [h2]
  · have h2 : 2 * i < n := lt_of_not_ge h
    simp [h, h2]

/-- Claim C2 (counterexample): for the odd size `n = 5` the middle logical
index `2` does not map to itself: the projection sends it to `4`. -/
theorem fip_middle_not_fixed :
    make_folded_interleave_projection 5 2 = 4 ∧
      ¬ make_folded_interleave_projection 5 2 = 2 := by
  decide

/-- Claim C2 (amended): for every `n ≥ 0`, the folded-interleave projection
restricted to `[0, n)` is a permutation of `[0, n)`, for even and odd `n`
alike; for odd `n = 2*k + 1` the middle logical index `k` maps to `n - 1`,
the last physical index, not to itself. -/
theorem fip_bijective (n : Nat) :
    Function.Bijective (fipFin n) ∧
      ∀ k : Nat, n = 2 * k + 1 →
        make_folded_interleave_projection (n : Int) (k : Int) = (n : Int) - 1 := by
  constructor
  · exact Finite.injective_iff_bijective.mp (fipFin_injective n)
  · intro k hk
    subst hk
    rw [fip_eval]
    split <;> omega

/-- Witness for the amended Claim C2 at the concrete odd size `n = 5`,
`k = 2`: the projection is a bijection on `Fin 5` and sends the middle
index `2` to `5 - 1 = 4`. -/
theorem fip_bijective_witness :
    Function.Bijective (fipFin 5) ∧
      make_folded_interleave_projection ((5 : Nat) : Int) ((2 : Nat) : Int) =
        ((5 : Nat) : Int) - 1 :=
  ⟨(fip_bijective 5).1, (fip_bijective 5).2 2 rfl⟩

/-- Claim C3: the source's `operator-=` executes `index_ += delta`, so
compound subtraction moves the iterator forward by `k` instead of backward,
and `(it - k) - it` evaluates to `+k`, not `-k`: evaluation of the code at
the failing input `it` at logical index 0 with `k = 1`. -/
theorem subAssign_adds_delta :
    ((make_projection_iterator 0 (fun i => i)).subAssign 1).index_ = 1 ∧
      ((make_projection_iterator 0 (fun i => i)).subInt 1).diff
        (make_projection_iterator 0 (fun i => i)) = 1 :=
  ⟨rfl, rfl⟩

/-- Claim C4 (counterexample): for `n = 10`, walking the logical indices
`0..9` through the projection does not yield `0,9,1,8,2,7,3,6,4,5`; already
`p(1) = 2`, not `9`. -/
theorem fip_walk_not_zigzag :
    ¬ ((List.range 10).map
        (fun (i : Nat) => make_folded_interleave_projection 10 (i : Int)) =
      [0, 9, 1, 8, 2, 7, 3, 6, 4, 5]) ∧
      make_folded_interleave_projection 10 1 = 2 := by
  decide

/-- Claim C4 (amended): walking logical indices `i = 0, 1, 2, ...` through
the folded-interleave projection yields the even physical indices in
ascending order followed by the odd physical indices in descending order:
for `n = 10` it maps `0..9` to `0,2,4,6,8,9,7,5,3,1`; for `n = 5` it maps
`0..4` to `0,2,4,3,1`; for `n = 2` it maps `0,1` to `0,1`; for `n = 1`,
`p(0) = 0`.  The sequence `0, n-1, 1, n-2, 2, n-3, ...` is instead the
inverse of the projection: applying `p` to the `j`-th entry of that zig-zag
sequence yields `j`. -/
theorem fip_walk_even_then_odd :
    ((List.range 10).map
        (fun (i : Nat) => make_folded_interleave_projection 10 (i : Int)) =
      [0, 2, 4, 6, 8, 9, 7, 5, 3, 1]) ∧
    ((List.range 5).map
        (fun (i : Nat) => make_folded_interleave_projection 5 (i : Int)) =
      [0, 2, 4, 3, 1]) ∧
    ((List.range 2).map
        (fun (i : Nat) => make_folded_interleave_projection 2 (i : Int)) = [0, 1]) ∧
    ((List.range 1).map
        (fun (i : Nat) => make_folded_interleave_projection 1 (i : Int)) = [0]) ∧
    (∀ n j : Nat, j < n →
      make_folded_interleave_projection (n : Int)
        (if j % 2 = 0 then ((j / 2 : Nat) : Int)
          else (n : Int) - 1 - ((j / 2 : Nat) : Int)) = (j : Int)) := by
  refine ⟨by decide, by decide, by decide, by decide, ?_⟩
  intro n j hj
  rw [fip_eval]
  split <;> split <;> omega

/-- Witness for the amended Claim C4 at `n = 10`, `j = 1`: the entry of the
zig-zag sequence at position 1 is `9`, and the projection maps `9` to `1`. -/
theorem fip_walk_even_then_odd_witness :
    (1 : Nat) < 10 ∧
      make_folded_interleave_projection ((10 : Nat) : Int)
        (if (1 : Nat) % 2 = 0 then (((1 : Nat) / 2 : Nat) : Int)
          else ((10 : Nat) : Int) - 1 - (((1 : Nat) / 2 : Nat) : Int)) =
        ((1 : Nat) : Int) :=
  ⟨by decide, fip_walk_even_then_odd.2.2.2.2 10 1 (by decide)⟩

/-- Claim C5: for every array `A` and every projection `p` that is a
bijection of `[0, |A|)`, sorting the whole range through the projection
iterator leaves the container with `A[p(i)]` non-decreasing as `i` runs over
`0, ..., |A| - 1`; in particular, sorting `[3,7,1,9,2]` through the
folded-interleave projection for `n = 5` leaves the physical array equal to
`[1,9,2,7,3]`. -/
theorem sort_through_projection :
    (∀ (A : List Int) (p : Int → Int),
      (∀ i : Nat, i < A.length →
        0 ≤ p (i : Int) ∧ p (i : Int) < (A.length : Int)) →
      (∀ i : Nat, i < A.length → ∀ j : Nat, j < A.length →
        p (i : Int) = p (j : Int) → i = j) →
      ∀ i j : Nat, i ≤ j → j < A.length →
        (sortThroughProjIter A p).getD (p (i : Int)).toNat 0 ≤
          (sortThroughProjIter A p).getD (p (j : Int)).toNat 0) ∧
    sortThroughProjIter [3, 7, 1, 9, 2] (make_folded_interleave_projection 5) =
      [1, 9, 2, 7, 3] := by
  constructor
  · intro A p hrange hinj i j hij hj
    have hi : i < A.length := lt_of_le_of_lt hij hj
    rw [sortThrough_getD A p hrange hinj i hi,
      sortThrough_getD A p hrange hinj j hj]
    have hlenLV : (logicalView A p).length = A.length := by
      unfold logicalView
      rw [List.length_map, List.length_range]
    exact insertionSort_getD_mono (logicalView A p) i j hij (by omega)
  · decide

/-- Witness for Claim C5 at the concrete scenario: `A = [3,7,1,9,2]`,
`p` the folded-interleave projection for size 5, logical positions
`i = 1 ≤ j = 3`. -/
theorem sort_through_projection_witness :
    (1 : Nat) ≤ 3 ∧ (3 : Nat) < ([3, 7, 1, 9, 2] : List Int).length ∧
      (sortThroughProjIter [3, 7, 1, 9, 2]
          (make_folded_interleave_projection 5)).getD
          (make_folded_interleave_projection 5 ((1 : Nat) : Int)).toNat 0 ≤
        (sortThroughProjIter [3, 7, 1, 9, 2]
          (make_folded_interleave_projection 5)).getD
          (make_folded_interleave_projection 5 ((3 : Nat) : Int)).toNat 0 :=
  ⟨by decide, by decide,
    sort_through_projection.1 [3, 7, 1, 9, 2]
      (make_folded_interleave_projection 5) (by decide) (by decide)
      1 3 (by decide) (by decide)⟩

/-- Claim C6: for projection iterators `a`, `b`, the difference `a - b` is
the signed difference of the logical indices (independent of the projection
and the physical positions), and `(a + k) - a = k` for every integer `k`. -/
theorem diff_is_logical (a b : ProjIter) (k : Int) :
    ProjIter.diff a b = a.index_ - b.index_ ∧
      ProjIter.diff (a.addInt k) a = k := by
  refine ⟨rfl, ?_⟩
  simp [ProjIter.diff, ProjIter.addInt, ProjIter.addAssign]

/-- Claim C7: all relational comparisons consult only the logical indices:
`a < b` iff `a.index_ < b.index_`, `a == b` iff `a.index_ = b.index_`, and
the derived operators are `a > b = b < a`, `a <= b = !(a > b)`,
`a >= b = !(a < b)`, `a != b = !(a == b)`. -/
theorem comparisons_logical (a b : ProjIter) :
    (ProjIter.lt a b = true ↔ a.index_ < b.index_) ∧
      (ProjIter.beq a b = true ↔ a.index_ = b.index_) ∧
      ProjIter.gt a b = ProjIter.lt b a ∧
      ProjIter.le a b = !(ProjIter.gt a b) ∧
      ProjIter.ge a b = !(ProjIter.lt a b) ∧
      ProjIter.neq a b = !(ProjIter.beq a b) := by
  refine ⟨?_, ?_, rfl, rfl, rfl, rfl⟩ <;>
    simp [ProjIter.lt, ProjIter.beq]

/-- Claim C8: construction stores the base position and starts at logical
index 0, and dereferencing an iterator whose logical index is `i` yields the
element of the container at physical position `base + projection i`,
provided that position is within bounds. -/
theorem construct_and_deref (α : Type) (c : List α) (b : Int) (p : Int → Int)
    (i : Int) (h0 : 0 ≤ b + p i) (h1 : (b + p i).toNat < c.length) :
    (make_projection_iterator b p).index_ = 0 ∧
      (make_projection_iterator b p).base_ = b ∧
      deref c { base_ := b, projection_ := p, index_ := i } =
        c.get? (b + p i).toNat ∧
      (deref c { base_ := b, projection_ := p, index_ := i }).isSome = true := by
  refine ⟨rfl, rfl, ?_, ?_⟩
  · simp [deref, atPos, ProjIter.projected_, h0]
  · simp [deref, atPos, ProjIter.projected_, h0, List.getElem?_eq_getElem h1]

/-- Witness for Claim C8: container `[10, 20, 30]`, base 0, identity
projection, logical index 1: dereference yields the element at position 1. -/
theorem construct_and_deref_witness :
    (make_projection_iterator 0 (fun x => x)).index_ = 0 ∧
      (make_projection_iterator 0 (fun x => x)).base_ = 0 ∧
      deref ([10, 20, 30] : List Int)
          { base_ := 0, projection_ := fun x => x, index_ := 1 } =
        ([10, 20, 30] : List Int).get? ((0 : Int) + (fun x => x) 1).toNat ∧
      (deref ([10, 20, 30] : List Int)
          { base_ := 0, projection_ := fun x => x, index_ := 1 }).isSome = true :=
  construct_and_deref Int [10, 20, 30] 0 (fun x => x) 1 (by decide) (by decide)

/-- Claim C9: the claim says member access yields the same target element as
dereference, as the source's own comment and the spec intend; but the source
declares `operator->` with return type `value_type` (the element type) while
its body returns `projected_()`, an `Iter`.  Evaluation of the code at the
failing input (container `[5, 6]`, base 0, identity projection, logical
index 1): the body computes the position `1`, dereference targets the
element `6`, and the body's value read as the declared element type is not
that target. -/
theorem arrow_return_type_mismatch :
    ProjIter.arrowBody { base_ := 0, projection_ := fun x => x, index_ := 1 } = 1 ∧
      deref ([5, 6] : List Int)
          { base_ := 0, projection_ := fun x => x, index_ := 1 } = some 6 ∧
      ¬ (some (ProjIter.arrowBody
            { base_ := 0, projection_ := fun x => x, index_ := 1 }) =
          deref ([5, 6] : List Int)
            { base_ := 0, projection_ := fun x => x, index_ := 1 }) := by
  refine ⟨rfl, rfl, ?_⟩
  decide

/-- Claim C10: copy/move assignment `t = s` copies `s`'s base position and
logical index into `t` but leaves `t`'s projection member unchanged;
afterwards `t == s` and `t - s == 0`. -/
theorem assign_frame (t s : ProjIter) :
    (t.assign s).projection_ = t.projection_ ∧
      (t.assign s).base_ = s.base_ ∧
      (t.assign s).index_ = s.index_ ∧
      ProjIter.beq (t.assign s) s = true ∧
      ProjIter.diff (t.assign s) s = 0 := by
  refine ⟨rfl, rfl, rfl, ?_, ?_⟩ <;>
    simp [ProjIter.assign, ProjIter.beq, ProjIter.diff]

end ProjectionIterator
